import Mathlib

/-!
Verification development for the onETL HWM / strategy subsystem.

Shallow embedding of the Python sources:
  * `onetl/hwm/store/hwm_class_registry.py`  (SparkTypeToHWM registry)
  * `onetl/connection/db_connection/db_connection.py` (SQL query / predicate
    generation, SQL literal rendering)
  * `onetl/connection/db_connection/postgres.py` (Postgres literal overrides)
  * `onetl/strategy/base_strategy.py` (scope enter / exit discipline)
  * `onetl/strategy/snapshot_strategy.py` (SnapshotBatchStrategy comparator)
  * `onetl/core/file_result/file_set.py` (FileSet.total_size)
Parts of the strategy engine (BatchHWMStrategy, HWMStrategy, StrategyManager,
the HWM store implementations) are not part of the source tree here; those are
modelled from the specification, and each such definition says so in its doc
comment.
-/

namespace Onetl

/-! ## HWM class registry (`hwm_class_registry.py`) -/

/-- HWM value classes known to the registry.  `ColumnIntHWM`, `ColumnDateHWM`
and `ColumnDateTimeHWM` come from `etl_entities.hwm`; `Custom` stands for any
user-defined HWM class registered at runtime. -/
inductive HWMClass where
  | ColumnIntHWM : HWMClass
  | ColumnDateHWM : HWMClass
  | ColumnDateTimeHWM : HWMClass
  | Custom : String → HWMClass
deriving DecidableEq, Repr

/-- The registry state: the `SparkTypeToHWM._mapping` class variable, a Python
dict modelled as an insertion-ordered association list with unique keys
(lookup returns the first match; update replaces in place). -/
abbrev Registry := List (String × HWMClass)

/-- Python `dict.get`: value bound to the first (and only) entry with this key. -/
def lookupKey : Registry → String → Option HWMClass
  | [], _ => none
  | (m, c) :: rest, n => if m = n then some c else lookupKey rest n

/-- Python `dict.__setitem__`: replace the binding in place if the key is
present, otherwise append a new entry (insertion order preserved). -/
def setKey : Registry → String → HWMClass → Registry
  | [], n, k => [(n, k)]
  | (m, c) :: rest, n, k => if m = n then (n, k) :: rest else (m, c) :: setKey rest n k

/-- Python `repr` of a plain type-name string (no escaping needed for the
names involved): the string wrapped in single quotes. -/
def pyRepr (s : String) : String := "\x27" ++ s ++ "\x27"

namespace SparkTypeToHWM

/-- `SparkTypeToHWM._mapping` initial contents. -/
def initialMapping : Registry :=
  [("byte", HWMClass.ColumnIntHWM),
   ("integer", HWMClass.ColumnIntHWM),
   ("short", HWMClass.ColumnIntHWM),
   ("long", HWMClass.ColumnIntHWM),
   ("date", HWMClass.ColumnDateHWM),
   ("timestamp", HWMClass.ColumnDateTimeHWM)]

/-- `SparkTypeToHWM.get`: look the name up in `_mapping`; a missing name
raises `KeyError(f"Unknown HWM type {type_name!r}")`, modelled as
`Except.error` carrying the message.  (Registered values are classes, hence
always truthy, so `if not result` fires exactly on a missing key.) -/
def get (reg : Registry) (type_name : String) : Except String HWMClass :=
  match lookupKey reg type_name with
  | some result => Except.ok result
  | none => Except.error ("Unknown HWM type " ++ pyRepr type_name)

/-- `SparkTypeToHWM.add`: `cls._mapping[type_name] = klass`. -/
def add (reg : Registry) (type_name : String) (klass : HWMClass) : Registry :=
  setKey reg type_name klass

end SparkTypeToHWM

/-- `register_hwm_class(*type_names)` applied to class `klass`: calls
`SparkTypeToHWM.add(type_name, klass)` for each name in order and returns the
class unchanged (here: the updated registry). -/
def register_hwm_class (type_names : List String) (klass : HWMClass) (reg : Registry) :
    Registry :=
  type_names.foldl (fun r n => SparkTypeToHWM.add r n klass) reg

theorem lookupKey_setKey_self (reg : Registry) (n : String) (k : HWMClass) :
    lookupKey (setKey reg n k) n = some k := by
  induction reg with
  | nil => simp [setKey, lookupKey]
  | cons hd tl ih =>
    obtain ⟨m, c⟩ := hd
    by_cases h : m = n
    · simp [setKey, lookupKey, h]
    · simp [setKey, lookupKey, h, ih]

theorem lookupKey_setKey_other (reg : Registry) (n other : String) (k : HWMClass)
    (h : other ≠ n) : lookupKey (setKey reg n k) other = lookupKey reg other := by
  have hn : n ≠ other := Ne.symm h
  induction reg with
  | nil => simp [setKey, lookupKey, hn]
  | cons hd tl ih =>
    obtain ⟨m, c⟩ := hd
    by_cases hm : m = n
    · subst hm
      simp [setKey, lookupKey, hn]
    · by_cases ho : m = other
      · simp [setKey, lookupKey, hm, ho, h]
      · simp [setKey, lookupKey, hm, ho, ih]

theorem setKey_length_of_mem (reg : Registry) (n : String) (c k : HWMClass)
    (h : lookupKey reg n = some c) : (setKey reg n k).length = reg.length := by
  induction reg with
  | nil => simp [lookupKey] at h
  | cons hd tl ih =>
    obtain ⟨m, c'⟩ := hd
    by_cases hm : m = n
    · simp [setKey, hm]
    · simp only [lookupKey, if_neg hm] at h
      simp [setKey, hm, ih h]

theorem register_hwm_class_singleton (reg : Registry) (name : String) (klass : HWMClass) :
    register_hwm_class [name] klass reg = SparkTypeToHWM.add reg name klass := rfl

/-- C5: `SparkTypeToHWM.get` of a type name missing from the registry yields the
recoverable, caller-visible "Unknown HWM type" error (a `KeyError`, modelled as
`Except.error`), and `get` of a registered type name returns the bound HWM
class without error. -/
theorem sparkTypeToHWM_get_registered_or_error (reg : Registry) (type_name : String) :
    (lookupKey reg type_name = none →
      SparkTypeToHWM.get reg type_name =
        Except.error ("Unknown HWM type " ++ pyRepr type_name))
    ∧ (∀ c, lookupKey reg type_name = some c →
      SparkTypeToHWM.get reg type_name = Except.ok c) := by
  constructor
  · intro h
    simp [SparkTypeToHWM.get, h]
  · intro c h
    simp [SparkTypeToHWM.get, h]

theorem sparkTypeToHWM_get_registered_or_error_witness :
    (lookupKey SparkTypeToHWM.initialMapping "unknown" = none ∧
      SparkTypeToHWM.get SparkTypeToHWM.initialMapping "unknown" =
        Except.error ("Unknown HWM type " ++ pyRepr "unknown"))
    ∧ (lookupKey SparkTypeToHWM.initialMapping "integer" = some HWMClass.ColumnIntHWM ∧
      SparkTypeToHWM.get SparkTypeToHWM.initialMapping "integer" =
        Except.ok HWMClass.ColumnIntHWM) :=
  ⟨⟨by decide,
    (sparkTypeToHWM_get_registered_or_error SparkTypeToHWM.initialMapping "unknown").1
      (by decide)⟩,
   ⟨by decide,
    (sparkTypeToHWM_get_registered_or_error SparkTypeToHWM.initialMapping "integer").2
      HWMClass.ColumnIntHWM (by decide)⟩⟩

/-- C6: adding a fresh type name to the registry (via `SparkTypeToHWM.add`, of
which `register_hwm_class` with one name is exactly one application) makes a
subsequent `get` of that name return the newly registered class, while `get`
of every previously registered type name still returns the class it was bound
to before. -/
theorem sparkTypeToHWM_add_fresh (reg : Registry) (name : String) (klass : HWMClass)
    (hnew : lookupKey reg name = none) :
    SparkTypeToHWM.get (SparkTypeToHWM.add reg name klass) name = Except.ok klass
    ∧ (∀ other c, lookupKey reg other = some c →
        SparkTypeToHWM.get (SparkTypeToHWM.add reg name klass) other = Except.ok c)
    ∧ register_hwm_class [name] klass reg = SparkTypeToHWM.add reg name klass := by
  refine ⟨?_, ?_, rfl⟩
  · simp [SparkTypeToHWM.get, SparkTypeToHWM.add, lookupKey_setKey_self]
  · intro other c h
    have hne : other ≠ name := by
      intro he
      rw [he, hnew] at h
      exact Option.noConfusion h
    simp [SparkTypeToHWM.get, SparkTypeToHWM.add, lookupKey_setKey_other reg name other klass hne, h]

theorem sparkTypeToHWM_add_fresh_witness :
    lookupKey SparkTypeToHWM.initialMapping "decimal" = none
    ∧ (SparkTypeToHWM.get
        (SparkTypeToHWM.add SparkTypeToHWM.initialMapping "decimal" (HWMClass.Custom "MyHWM"))
        "decimal" = Except.ok (HWMClass.Custom "MyHWM")
      ∧ (∀ other c, lookupKey SparkTypeToHWM.initialMapping other = some c →
          SparkTypeToHWM.get
            (SparkTypeToHWM.add SparkTypeToHWM.initialMapping "decimal" (HWMClass.Custom "MyHWM"))
            other = Except.ok c)
      ∧ register_hwm_class ["decimal"] (HWMClass.Custom "MyHWM") SparkTypeToHWM.initialMapping =
          SparkTypeToHWM.add SparkTypeToHWM.initialMapping "decimal" (HWMClass.Custom "MyHWM")) :=
  ⟨by decide,
   sparkTypeToHWM_add_fresh SparkTypeToHWM.initialMapping "decimal" (HWMClass.Custom "MyHWM")
     (by decide)⟩

/-- C9: re-registering an already bound type name with a different class
silently replaces the existing binding (last registration wins): `get` returns
the new class, no error is raised (`add` is total), and the registry keeps the
same number of entries (in-place dict update, not an append). -/
theorem sparkTypeToHWM_add_replaces (reg : Registry) (name : String) (oldc newc : HWMClass)
    (hold : lookupKey reg name = some oldc) :
    SparkTypeToHWM.get (SparkTypeToHWM.add reg name newc) name = Except.ok newc
    ∧ (SparkTypeToHWM.add reg name newc).length = reg.length := by
  constructor
  · simp [SparkTypeToHWM.get, SparkTypeToHWM.add, lookupKey_setKey_self]
  · exact setKey_length_of_mem reg name oldc newc hold

theorem sparkTypeToHWM_add_replaces_witness :
    lookupKey SparkTypeToHWM.initialMapping "date" = some HWMClass.ColumnDateHWM
    ∧ (SparkTypeToHWM.get
        (SparkTypeToHWM.add SparkTypeToHWM.initialMapping "date" (HWMClass.Custom "NewDateHWM"))
        "date" = Except.ok (HWMClass.Custom "NewDateHWM")
      ∧ (SparkTypeToHWM.add SparkTypeToHWM.initialMapping "date"
          (HWMClass.Custom "NewDateHWM")).length = SparkTypeToHWM.initialMapping.length) :=
  ⟨by decide,
   sparkTypeToHWM_add_replaces SparkTypeToHWM.initialMapping "date" HWMClass.ColumnDateHWM
     (HWMClass.Custom "NewDateHWM") (by decide)⟩

/-! ## SQL literal rendering (`db_connection.py`, `postgres.py`) -/

/-- A `datetime.date` value: year, month, day. -/
structure PyDate where
  year : Nat
  month : Nat
  day : Nat
deriving DecidableEq, Repr

/-- A `datetime.datetime` value.  In Python `datetime` is a subclass of
`date`; here the two are distinct constructors of `PyValue`, and the model of
`_get_value_sql` dispatches on the constructor just as the source dispatches
on `isinstance` (checking `datetime` before `date`, which matters there
precisely because of that subclassing). -/
structure PyDateTime where
  year : Nat
  month : Nat
  day : Nat
  hour : Nat
  minute : Nat
  second : Nat
  microsecond : Nat
deriving DecidableEq, Repr

/-- Zero-padded decimal rendering with at least `w` digits, as produced by
Python for the fixed-width fields of `isoformat`. -/
def padNat (w n : Nat) : String :=
  let s := toString n
  if s.length < w then String.mk (List.replicate (w - s.length) "0".front) ++ s else s

/-- `date.isoformat()`: the string `YYYY-MM-DD`. -/
def PyDate.isoformat (d : PyDate) : String :=
  padNat 4 d.year ++ "-" ++ padNat 2 d.month ++ "-" ++ padNat 2 d.day

/-- `datetime.isoformat()`: `YYYY-MM-DDTHH:MM:SS`, with `.ffffff` appended
only when the microsecond field is nonzero. -/
def PyDateTime.isoformat (t : PyDateTime) : String :=
  padNat 4 t.year ++ "-" ++ padNat 2 t.month ++ "-" ++ padNat 2 t.day ++ "T" ++
    padNat 2 t.hour ++ ":" ++ padNat 2 t.minute ++ ":" ++ padNat 2 t.second ++
    (if t.microsecond = 0 then "" else "." ++ padNat 6 t.microsecond)

/-- Values that reach `DBConnection._get_value_sql`: datetimes, dates,
integers, and anything else (rendered via `str(value)`, modelled by carrying
that string). -/
inductive PyValue where
  | datetime : PyDateTime → PyValue
  | date : PyDate → PyValue
  | int : Int → PyValue
  | other : String → PyValue
deriving DecidableEq, Repr

/-- `str(value)` for the values above (only used on the non-date branches of
`_get_value_sql`). -/
def PyValue.str : PyValue → String
  | .datetime t => t.isoformat
  | .date d => d.isoformat
  | .int n => toString n
  | .other s => s

/-- The SQL dialects in play: the base `DBConnection` rendering and the
`Postgres` subclass overrides. -/
inductive SqlDialect where
  | generic : SqlDialect
  | postgres : SqlDialect
deriving DecidableEq, Repr

/-- `_get_datetime_value_sql`: base class renders `'ISO'`; Postgres overrides
it to `'ISO'::timestamp`. -/
def getDatetimeValueSql : SqlDialect → PyDateTime → String
  | .generic, t => "\x27" ++ t.isoformat ++ "\x27"
  | .postgres, t => "\x27" ++ t.isoformat ++ "\x27::timestamp"

/-- `_get_date_value_sql`: base class renders `'ISO'`; Postgres overrides it
to `'ISO'::date`. -/
def getDateValueSql : SqlDialect → PyDate → String
  | .generic, d => "\x27" ++ d.isoformat ++ "\x27"
  | .postgres, d => "\x27" ++ d.isoformat ++ "\x27::date"

/-- `DBConnection._get_value_sql`: dispatch on the runtime type — datetime
first (it is a `date` subclass in Python), then date, else `str(value)`. -/
def getValueSql (dia : SqlDialect) : PyValue → String
  | .datetime t => getDatetimeValueSql dia t
  | .date d => getDateValueSql dia d
  | v => v.str

/-- C7: type-aware SQL literal rendering.  Integers (and other bare values)
are rendered unquoted via `str(value)`; dates are rendered as the quoted ISO
form `'YYYY-MM-DD'` (zero-padded fields); datetimes are rendered quoted in ISO
form; the Postgres connection adds its cast suffixes `::timestamp` for
datetimes and `::date` for dates.  No date or datetime value is ever
interpolated without quoting: the dispatch in `_get_value_sql` is exhaustive
on those types. -/
theorem get_value_sql_type_aware (dia : SqlDialect) (n : Int) (d : PyDate) (t : PyDateTime) :
    getValueSql dia (PyValue.int n) = toString n
    ∧ getValueSql SqlDialect.generic (PyValue.date d) = "\x27" ++ d.isoformat ++ "\x27"
    ∧ getValueSql SqlDialect.postgres (PyValue.date d) = "\x27" ++ d.isoformat ++ "\x27::date"
    ∧ getValueSql SqlDialect.generic (PyValue.datetime t) = "\x27" ++ t.isoformat ++ "\x27"
    ∧ getValueSql SqlDialect.postgres (PyValue.datetime t) =
        "\x27" ++ t.isoformat ++ "\x27::timestamp"
    ∧ d.isoformat = padNat 4 d.year ++ "-" ++ padNat 2 d.month ++ "-" ++ padNat 2 d.day
    ∧ getValueSql SqlDialect.postgres (PyValue.date ⟨2021, 1, 5⟩) = "\x272021-01-05\x27::date" :=
  ⟨rfl, rfl, rfl, rfl, rfl, rfl, rfl⟩

/-! ## Query and predicate generation (`db_connection.py`) -/

/-- Python `" ".join` on a list of strings. -/
def joinSp : List String → String
  | [] => ""
  | [x] => x
  | x :: y :: rest => x ++ " " ++ joinSp (y :: rest)

/-- Python `", ".join` on a list of strings. -/
def joinComma : List String → String
  | [] => ""
  | [x] => x
  | x :: y :: rest => x ++ ", " ++ joinComma (y :: rest)

/-- Python `filter(None, parts)` over a list mixing `None` and strings: drop
`None` and empty (falsy) strings. -/
def filterTruthy (parts : List (Option String)) : List String :=
  parts.filterMap fun p =>
    match p with
    | some s => if s = "" then none else some s
    | none => none

/-- `DBConnection.get_sql_query`: `columns_str` is `", ".join(columns)` when
`columns` is truthy (non-`None`, non-empty) else `"*"`; `hint` becomes
`"/*+ <hint> */"` and `where` becomes `"WHERE <where>"` when truthy, else
`None`; the result is the space-join of the truthy parts. -/
def get_sql_query (table : String) (columns : Option (List String))
    (whereClause : Option String) (hint : Option String) : String :=
  let columns_str :=
    match columns with
    | some cs => if cs.isEmpty then "*" else joinComma cs
    | none => "*"
  let hintPart : Option String :=
    match hint with
    | some h => if h = "" then none else some ("/*+ " ++ h ++ " */")
    | none => none
  let wherePart : Option String :=
    match whereClause with
    | some w => if w = "" then none else some ("WHERE " ++ w)
    | none => none
  joinSp (filterTruthy [some "SELECT", hintPart, some columns_str, some "FROM", some table, wherePart])

/-- The comparison operators appearing as keys of
`DBConnection._compare_statements`. -/
inductive Comparator where
  | ge : Comparator
  | gt : Comparator
  | le : Comparator
  | lt : Comparator
  | eq : Comparator
  | ne : Comparator
deriving DecidableEq, Repr

/-- The `_compare_statements` template for each operator, applied to the two
rendered arguments (the Python side formats a two-hole template). -/
def compareTemplate : Comparator → String → String → String
  | .ge, a, b => a ++ " >= " ++ b
  | .gt, a, b => a ++ " > " ++ b
  | .le, a, b => a ++ " <= " ++ b
  | .lt, a, b => a ++ " < " ++ b
  | .eq, a, b => a ++ " == " ++ b
  | .ne, a, b => a ++ " != " ++ b

/-- `DBConnection.get_compare_statement`: instantiate the operator's template
with `arg1` as-is and `arg2` rendered through `_get_value_sql`. -/
def get_compare_statement (dia : SqlDialect) (comparator : Comparator)
    (arg1 : String) (arg2 : PyValue) : String :=
  compareTemplate comparator arg1 (getValueSql dia arg2)

theorem filterTruthy_nil : filterTruthy [] = [] := rfl

theorem filterTruthy_cons_none (l : List (Option String)) :
    filterTruthy (none :: l) = filterTruthy l := by
  simp [filterTruthy]

theorem filterTruthy_cons_some (s : String) (l : List (Option String)) (hs : s ≠ "") :
    filterTruthy (some s :: l) = s :: filterTruthy l := by
  simp [filterTruthy, hs]

theorem filterTruthy_append (l₁ l₂ : List (Option String)) :
    filterTruthy (l₁ ++ l₂) = filterTruthy l₁ ++ filterTruthy l₂ := by
  simp [filterTruthy]

theorem joinSp_cons_append (x y : String) (l : List String) :
    joinSp (x :: (l ++ [y])) = joinSp (x :: l) ++ " " ++ y := by
  induction l generalizing x with
  | nil => simp [joinSp]
  | cons z l ih =>
    have hz := ih z
    simp only [List.cons_append] at hz ⊢
    simp [joinSp, hz, String.append_assoc]

theorem append_ne_empty_left (a w : String) (ha : a.length ≠ 0) : a ++ w ≠ "" := by
  intro h
  have hl := congrArg String.length h
  rw [String.length_append] at hl
  simp only [String.length_empty] at hl
  omega

/-- C8: query and predicate generation is pure (side-effect-free Lean
functions) and omits absent clauses.  With `where=None` the generated SELECT
has no WHERE clause; with a non-empty `where` string the result is exactly the
`where=None` query with `" WHERE <where>"` appended; and
`get_compare_statement` renders `arg1 >= value` for the inclusive comparator
and `arg1 > value` for the exclusive one. -/
theorem get_sql_query_clauses (t : String) (cs : Option (List String))
    (hint : Option String) (w : String) (e : String) (dia : SqlDialect) (v : PyValue)
    (hw : w ≠ "") (ht : t ≠ "") :
    get_sql_query t cs (some w) hint = get_sql_query t cs none hint ++ " WHERE " ++ w
    ∧ get_sql_query t none none none = "SELECT * FROM " ++ t
    ∧ (∀ cols : List String, cols ≠ [] → joinComma cols ≠ "" →
        get_sql_query t (some cols) none none = "SELECT " ++ joinComma cols ++ " FROM " ++ t)
    ∧ get_compare_statement dia Comparator.ge e v = e ++ " >= " ++ getValueSql dia v
    ∧ get_compare_statement dia Comparator.gt e v = e ++ " > " ++ getValueSql dia v := by
  refine ⟨?_, ?_, ?_, rfl, rfl⟩
  · have hwne : ("WHERE " ++ w) ≠ "" := append_ne_empty_left "WHERE " w (by decide)
    unfold get_sql_query
    dsimp only
    rw [if_neg hw]
    generalize (match hint with
      | some h => if h = "" then none else some ("/*+ " ++ h ++ " */")
      | none => none) = hp
    generalize (match cs with
      | some l => if l.isEmpty then "*" else joinComma l
      | none => "*") = cstr
    have hsplit : ([some "SELECT", hp, some cstr, some "FROM", some t,
        some ("WHERE " ++ w)] : List (Option String)) =
        [some "SELECT", hp, some cstr, some "FROM", some t] ++ [some ("WHERE " ++ w)] := rfl
    have hnone : ([some "SELECT", hp, some cstr, some "FROM", some t, none] :
        List (Option String)) =
        [some "SELECT", hp, some cstr, some "FROM", some t] ++ [none] := rfl
    rw [hsplit, hnone, filterTruthy_append, filterTruthy_append,
      filterTruthy_cons_some _ _ hwne, filterTruthy_cons_none, filterTruthy_nil,
      List.append_nil, filterTruthy_cons_some "SELECT" _ (by decide),
      List.cons_append, joinSp_cons_append]
    have hfold : " " ++ ("WHERE " ++ w) = " WHERE " ++ w := by
      rw [← String.append_assoc]
      simp
    simp [String.append_assoc, hfold]
  · simp [get_sql_query, filterTruthy, joinSp, ht, ← String.append_assoc]
  · intro cols hcols hjc
    simp [get_sql_query, filterTruthy, joinSp, ht, hjc, List.isEmpty_eq_false.mpr hcols,
      ← String.append_assoc]
    rw [String.append_assoc ("SELECT " ++ joinComma cols) " " "FROM "]
    simp

theorem get_sql_query_clauses_witness :
    ("id > 100" : String) ≠ "" ∧ ("mydata" : String) ≠ ""
    ∧ (get_sql_query "mydata" (some ["id", "data"]) (some "id > 100") none =
        get_sql_query "mydata" (some ["id", "data"]) none none ++ " WHERE " ++ "id > 100"
      ∧ get_sql_query "mydata" none none none = "SELECT * FROM " ++ "mydata"
      ∧ (∀ cols : List String, cols ≠ [] → joinComma cols ≠ "" →
          get_sql_query "mydata" (some cols) none none =
            "SELECT " ++ joinComma cols ++ " FROM " ++ "mydata")
      ∧ get_compare_statement SqlDialect.generic Comparator.ge "id" (PyValue.int 100) =
          "id" ++ " >= " ++ getValueSql SqlDialect.generic (PyValue.int 100)
      ∧ get_compare_statement SqlDialect.generic Comparator.gt "id" (PyValue.int 100) =
          "id" ++ " > " ++ getValueSql SqlDialect.generic (PyValue.int 100)) :=
  ⟨by decide, by decide,
   get_sql_query_clauses "mydata" (some ["id", "data"]) none "id > 100" "id"
     SqlDialect.generic (PyValue.int 100) (by decide) (by decide)⟩

/-! ## `FileSet.total_size` (`file_set.py`) -/

/-- A member of a `FileSet`, as observed by `total_size`: whether the object
satisfies `SizedPathProtocol` (has `stat`), whether `file.exists()` holds at
the moment of the call, and the `st_size` the filesystem reports (an `int` in
Python, hence `Int` here). -/
structure FileEntry where
  sized : Bool
  onDisk : Bool
  st_size : Int
deriving DecidableEq, Repr

/-- `FileSet` is an `OrderedSet` of path objects; `total_size` only iterates
it, so the ordered-set is modelled as the list of its members. -/
abbrev FileSet := List FileEntry

/-- `FileSet.total_size`:
`sum(file.stat().st_size for file in self if isinstance(file, SizedPathProtocol) and file.exists())`,
as a structural recursion over the members (the generator adds the size of a
member exactly when both tests pass, and skips it otherwise). -/
def total_size : FileSet → Int
  | [] => 0
  | f :: rest => (if f.sized && f.onDisk then f.st_size else 0) + total_size rest

/-- C10: `total_size` is total (a Lean function — evaluating it never fails,
whatever the mix of missing or unsized members), it equals the sum of
`st_size` over exactly those members that are sized and currently exist,
members failing either test contribute nothing, the empty set yields `0`, and
under the filesystem guarantee that reported sizes are non-negative the total
is non-negative. -/
theorem total_size_spec (fs : FileSet)
    (hsizes : ∀ f ∈ fs, 0 ≤ f.st_size) :
    total_size fs = ((fs.filter fun f => f.sized && f.onDisk).map FileEntry.st_size).sum
    ∧ total_size ([] : FileSet) = 0
    ∧ 0 ≤ total_size fs := by
  have hsum : ∀ gs : FileSet,
      total_size gs = ((gs.filter fun f => f.sized && f.onDisk).map FileEntry.st_size).sum := by
    intro gs
    induction gs with
    | nil => rfl
    | cons f rest ih =>
      by_cases hf : (f.sized && f.onDisk) = true
      · simp [total_size, List.filter_cons, hf, ih]
      · simp [total_size, List.filter_cons, hf, ih]
  refine ⟨hsum fs, rfl, ?_⟩
  induction fs with
  | nil => simp [total_size]
  | cons f rest ih =>
    have hf : 0 ≤ f.st_size := hsizes f (List.mem_cons_self f rest)
    have hrest : 0 ≤ total_size rest := ih fun g hg => hsizes g (List.mem_cons_of_mem f hg)
    by_cases hc : (f.sized && f.onDisk) = true
    · simp only [total_size, hc, if_true]
      omega
    · simp only [total_size, hc, if_false]
      omega

theorem total_size_spec_witness :
    (∀ f ∈ ([⟨true, true, 100⟩, ⟨true, false, 7⟩, ⟨false, true, 9⟩] : FileSet), 0 ≤ f.st_size)
    ∧ (total_size [⟨true, true, 100⟩, ⟨true, false, 7⟩, ⟨false, true, 9⟩] =
        ((([⟨true, true, 100⟩, ⟨true, false, 7⟩, ⟨false, true, 9⟩] : FileSet).filter
          fun f => f.sized && f.onDisk).map FileEntry.st_size).sum
      ∧ total_size ([] : FileSet) = 0
      ∧ 0 ≤ total_size [⟨true, true, 100⟩, ⟨true, false, 7⟩, ⟨false, true, 9⟩]) :=
  ⟨by decide,
   total_size_spec [⟨true, true, 100⟩, ⟨true, false, 7⟩, ⟨false, true, 9⟩] (by decide)⟩

/-! ## HWM store and strategy scope (spec-modelled where noted) -/

/-- Python `dict.get` over the store's records, keyed by qualified name. -/
def storeLookup : List (String × Int) → String → Option Int
  | [], _ => none
  | (m, v) :: rest, n => if m = n then some v else storeLookup rest n

/-- In-place update / append for the store's records. -/
def storeWrite : List (String × Int) → String → Int → List (String × Int)
  | [], n, v => [(n, v)]
  | (m, u) :: rest, n, v => if m = n then (n, v) :: rest else (m, u) :: storeWrite rest n v

/-- Modelled from the spec: the HWM Store (the store implementations are not
part of this source tree) — "a pluggable key/value persistence layer mapping a
qualified source identifier to its current HWM value", with
`get(qualified_name) -> HWM | absent` and `set(hwm)`.  HWM values are taken as
integers, the representative ordered value type. -/
structure HWMStore where
  entries : List (String × Int)
deriving DecidableEq, Repr

/-- `HWMStore.get`. -/
def HWMStore.get (s : HWMStore) (qualified_name : String) : Option Int :=
  storeLookup s.entries qualified_name

/-- `HWMStore.set`. -/
def HWMStore.set (s : HWMStore) (qualified_name : String) (value : Int) : HWMStore :=
  ⟨storeWrite s.entries qualified_name value⟩

/-- The per-scope strategy state: the qualified name it tracks and the pending
next HWM value (the upper bound of the last boundary pair consumed so far,
absent before any pair is consumed). -/
structure StrategyScopeState where
  qualified_name : String
  pending : Option Int
deriving DecidableEq, Repr

/-- A strategy run's full state: the current HWM store plus the scope state. -/
structure RunState where
  store : HWMStore
  scope : StrategyScopeState
deriving DecidableEq, Repr

/-- Modelled from the spec: one batch iteration — a boundary pair is consumed
and the pending next-HWM value becomes that pair's upper bound ("compute the
new HWM (= maximum upper bound observed)"; upper bounds are produced in
increasing order, so the last one is the maximum).  Iteration never touches
the store: "the whole strategy scope is the unit of commit". -/
def iterate_scope (st : RunState) (pair : Int × Int) : RunState :=
  { st with scope := { st.scope with pending := some pair.2 } }

/-- Modelled from the spec: `HWMStrategy` exit — "on clean exit (no exception
escaped the scope) and if at least one boundary was produced, compute the new
HWM and call `HWMStore.set`; on exit via exception, the HWM is not
advanced". -/
def exit_hook (failed : Bool) (st : RunState) : RunState :=
  if failed then st
  else
    match st.scope.pending with
    | some v => { st with store := st.store.set st.scope.qualified_name v }
    | none => st

/-- A whole strategy scope: consume the produced boundary pairs in order, then
exit, with `failed = true` when the scope is left via an exception. -/
def run_strategy_scope (pairs : List (Int × Int)) (failed : Bool) (st : RunState) : RunState :=
  exit_hook failed (pairs.foldl iterate_scope st)

theorem iterate_scope_store (pairs : List (Int × Int)) (st : RunState) :
    (pairs.foldl iterate_scope st).store = st.store := by
  induction pairs generalizing st with
  | nil => rfl
  | cons p rest ih => simp [List.foldl_cons, iterate_scope, ih]

/-- C1: a strategy scope exited via an exception after producing any number
N ≥ 1 of boundary pairs does not advance the HWM: the store is left exactly
as it was, and in particular `store.get qualified_name` after the scope
equals its pre-scope value. -/
theorem failed_scope_preserves_hwm (st : RunState) (pairs : List (Int × Int))
    (hn : 1 ≤ pairs.length) :
    (run_strategy_scope pairs true st).store.get st.scope.qualified_name =
      st.store.get st.scope.qualified_name
    ∧ (run_strategy_scope pairs true st).store = st.store := by
  have hstore : (run_strategy_scope pairs true st).store = st.store := by
    simp [run_strategy_scope, exit_hook, iterate_scope_store]
  exact ⟨by rw [hstore], hstore⟩

theorem failed_scope_preserves_hwm_witness :
    1 ≤ ([((100 : Int), (200 : Int))] : List (Int × Int)).length
    ∧ ((run_strategy_scope [(100, 200)] true
          ⟨⟨[("ns.mytable.id", 100)]⟩, ⟨"ns.mytable.id", none⟩⟩).store.get "ns.mytable.id" =
        (⟨⟨[("ns.mytable.id", 100)]⟩, ⟨"ns.mytable.id", none⟩⟩ : RunState).store.get
          "ns.mytable.id"
      ∧ (run_strategy_scope [(100, 200)] true
          ⟨⟨[("ns.mytable.id", 100)]⟩, ⟨"ns.mytable.id", none⟩⟩).store =
        (⟨⟨[("ns.mytable.id", 100)]⟩, ⟨"ns.mytable.id", none⟩⟩ : RunState).store) :=
  ⟨by decide,
   failed_scope_preserves_hwm ⟨⟨[("ns.mytable.id", 100)]⟩, ⟨"ns.mytable.id", none⟩⟩
     [(100, 200)] (by decide)⟩

/-! ## Strategy stack enter / exit (`base_strategy.py`) -/

/-- The `StrategyManager` process-wide stack (the manager module is not part
of this source tree; per the spec it is a strict LIFO push/pop stack, so
`push` conses and `pop` removes the top).  Elements stand for the strategy
objects. -/
structure StrategyManagerState where
  stack : List String
deriving DecidableEq, Repr

namespace StrategyManager

/-- `StrategyManager.push`. -/
def push (x : String) (s : StrategyManagerState) : StrategyManagerState :=
  ⟨x :: s.stack⟩

/-- `StrategyManager.pop`: the popped top of the stack together with the
remaining stack (`__exit__` is only reached after `__enter__` pushed, so the
stack is non-empty there). -/
def pop (s : StrategyManagerState) : Option String × StrategyManagerState :=
  (s.stack.head?, ⟨s.stack.tail⟩)

end StrategyManager

/-- `BaseStrategy.__exit__`: pop the strategy stack once, compute
`failed = bool(exc_type)`, invoke the popped strategy's `exit_hook` with that
flag on the already-popped state, and return `False` (never suppress the
exception).  The hook is a parameter so that the order of effects — pop
strictly before hook — is part of the definition. -/
def base_strategy_exit
    (hook : String → Bool → StrategyManagerState → StrategyManagerState)
    (exc_type : Option String) (s : StrategyManagerState) :
    StrategyManagerState × Bool :=
  let popped := StrategyManager.pop s
  match popped.1 with
  | some strat => (hook strat exc_type.isSome popped.2, false)
  | none => (popped.2, false)

/-- C4: for every entered strategy and every outcome (clean exit:
`exc_type = none`; exception: `exc_type = some e`), `__exit__` pops the stack
exactly once before invoking the exit hook — the hook runs on the state whose
stack is the tail, receiving the popped top and `failed = exc_type.isSome` —
and it returns `False`, so any exception propagates to the caller. -/
theorem base_strategy_exit_spec
    (hook : String → Bool → StrategyManagerState → StrategyManagerState)
    (exc_type : Option String) (s : StrategyManagerState) (h : s.stack ≠ []) :
    (base_strategy_exit hook exc_type s).2 = false
    ∧ ∃ top rest, s.stack = top :: rest
        ∧ base_strategy_exit hook exc_type s =
            (hook top exc_type.isSome ⟨rest⟩, false) := by
  obtain ⟨stack⟩ := s
  cases stack with
  | nil => exact absurd rfl h
  | cons top rest => exact ⟨rfl, top, rest, rfl, rfl⟩

theorem base_strategy_exit_spec_witness :
    (⟨["IncrementalStrategy"]⟩ : StrategyManagerState).stack ≠ []
    ∧ ((base_strategy_exit (fun _ _ st => st) (some "RuntimeError")
          ⟨["IncrementalStrategy"]⟩).2 = false
      ∧ ∃ top rest, (⟨["IncrementalStrategy"]⟩ : StrategyManagerState).stack = top :: rest
          ∧ base_strategy_exit (fun _ _ st => st) (some "RuntimeError")
              ⟨["IncrementalStrategy"]⟩ =
              ((fun (_ : String) (_ : Bool) (st : StrategyManagerState) => st) top
                (some "RuntimeError").isSome ⟨rest⟩, false)) :=
  ⟨by decide,
   base_strategy_exit_spec (fun _ _ st => st) (some "RuntimeError")
     ⟨["IncrementalStrategy"]⟩ (by decide)⟩

/-! ## Batch boundary pair generation (spec-modelled `BatchHWMStrategy`) -/

/-- Modelled from the spec: `BatchHWMStrategy` iteration
(`batch_hwm_strategy.py` is not part of this source tree).  Spec section 4.2:
the resolved `(lower, stop)` span is covered by sub-ranges of size `step`
produced in order — each pair spans from the running lower bound to
`lower + step`, "the last sub-range clipped to `stop`"; with `start > stop`
the sequence is empty.  `fuel` caps the recursion so that the function is
structurally total; the wrapper passes fuel sufficient for every strictly
positive step. -/
def batchPairsAux (fuel : Nat) (lo stop step : Int) : List (Int × Int) :=
  match fuel with
  | 0 => []
  | fuel + 1 =>
    if stop < lo then []
    else if stop ≤ lo + step then [(lo, stop)]
    else (lo, lo + step) :: batchPairsAux fuel (lo + step) stop step

/-- The boundary pair sequence of one batch strategy run with resolved bounds
`start`, `stop` and step `step`. -/
def batchPairs (start stop step : Int) : List (Int × Int) :=
  batchPairsAux ((stop - start).toNat + 1) start stop step

theorem batchPairsAux_head (fuel : Nat) (lo stop step : Int)
    (hfuel : (stop - lo).toNat < fuel) (hlo : lo ≤ stop) :
    (batchPairsAux fuel lo stop step).head?.map Prod.fst = some lo := by
  match fuel with
  | 0 => omega
  | fuel + 1 =>
    rw [batchPairsAux]
    rw [if_neg (by omega)]
    by_cases hclip : stop ≤ lo + step
    · rw [if_pos hclip]
      rfl
    · rw [if_neg hclip]
      rfl

theorem batchPairsAux_ne_nil (fuel : Nat) (lo stop step : Int)
    (hfuel : (stop - lo).toNat < fuel) (hlo : lo ≤ stop) :
    batchPairsAux fuel lo stop step ≠ [] := by
  intro h
  have := batchPairsAux_head fuel lo stop step hfuel hlo
  rw [h] at this
  simp at this

theorem batchPairsAux_mem_bounds (fuel : Nat) (lo stop step : Int)
    (hstep : 0 < step) (hfuel : (stop - lo).toNat < fuel) (hlo : lo ≤ stop) :
    ∀ p ∈ batchPairsAux fuel lo stop step, lo ≤ p.1 ∧ p.1 ≤ p.2 ∧ p.2 ≤ stop := by
  induction fuel generalizing lo with
  | zero => omega
  | succ fuel ih =>
    intro p hp
    rw [batchPairsAux] at hp
    rw [if_neg (by omega : ¬stop < lo)] at hp
    by_cases hclip : stop ≤ lo + step
    · rw [if_pos hclip] at hp
      simp only [List.mem_singleton] at hp
      subst hp
      exact ⟨le_refl lo, hlo, le_refl stop⟩
    · rw [if_neg hclip] at hp
      rcases List.mem_cons.mp hp with hhead | htail
      · subst hhead
        constructor
        · exact le_refl lo
        · constructor <;> omega
      · have hrec := ih (lo + step) (by omega) (by omega) p htail
        refine ⟨by omega, hrec.2.1, hrec.2.2⟩

theorem batchPairsAux_chain (fuel : Nat) (lo stop step : Int)
    (hstep : 0 < step) (hfuel : (stop - lo).toNat < fuel) (hlo : lo ≤ stop) :
    List.Chain' (fun p q : Int × Int => p.2 = q.1) (batchPairsAux fuel lo stop step) := by
  induction fuel generalizing lo with
  | zero => omega
  | succ fuel ih =>
    rw [batchPairsAux]
    rw [if_neg (by omega : ¬stop < lo)]
    by_cases hclip : stop ≤ lo + step
    · rw [if_pos hclip]
      exact List.chain'_singleton _
    · rw [if_neg hclip]
      refine List.chain'_cons'.mpr ⟨?_, ih (lo + step) (by omega) (by omega)⟩
      intro q hq
      have hq' : (batchPairsAux fuel (lo + step) stop step).head? = some q := hq
      have hhead := batchPairsAux_head fuel (lo + step) stop step (by omega) (by omega)
      rw [hq'] at hhead
      have hq1 : q.1 = lo + step := by simpa using hhead
      show lo + step = q.1
      exact hq1.symm

theorem batchPairsAux_last (fuel : Nat) (lo stop step : Int)
    (hstep : 0 < step) (hfuel : (stop - lo).toNat < fuel) (hlo : lo ≤ stop) :
    (batchPairsAux fuel lo stop step).getLast?.map Prod.snd = some stop := by
  induction fuel generalizing lo with
  | zero => omega
  | succ fuel ih =>
    rw [batchPairsAux]
    rw [if_neg (by omega : ¬stop < lo)]
    by_cases hclip : stop ≤ lo + step
    · rw [if_pos hclip]
      rfl
    · rw [if_neg hclip]
      have hne := batchPairsAux_ne_nil fuel (lo + step) stop step (by omega) (by omega)
      cases htl : batchPairsAux fuel (lo + step) stop step with
      | nil => exact absurd htl hne
      | cons q rest =>
        rw [List.getLast?_cons_cons]
        rw [← htl]
        exact ih (lo + step) (by omega) (by omega)

theorem batchPairsAux_pairwise (fuel : Nat) (lo stop step : Int)
    (hstep : 0 < step) (hfuel : (stop - lo).toNat < fuel) (hlo : lo ≤ stop) :
    List.Pairwise (fun p q : Int × Int => p.2 ≤ q.1) (batchPairsAux fuel lo stop step) := by
  induction fuel generalizing lo with
  | zero => omega
  | succ fuel ih =>
    rw [batchPairsAux, if_neg (by omega : ¬stop < lo)]
    by_cases hclip : stop ≤ lo + step
    · rw [if_pos hclip]
      simp
    · rw [if_neg hclip]
      refine List.pairwise_cons.mpr ⟨?_, ih (lo + step) (by omega) (by omega)⟩
      intro q hq
      have := batchPairsAux_mem_bounds fuel (lo + step) stop step hstep (by omega) (by omega) q hq
      show lo + step ≤ q.1
      omega

theorem batchPairsAux_cover (fuel : Nat) (lo stop step : Int)
    (hstep : 0 < step) (hfuel : (stop - lo).toNat < fuel) (hlo : lo ≤ stop) :
    ∀ x : Int, (lo ≤ x ∧ x ≤ stop) ↔
      (x = lo ∨ ∃ p ∈ batchPairsAux fuel lo stop step, p.1 < x ∧ x ≤ p.2) := by
  induction fuel generalizing lo with
  | zero => omega
  | succ fuel ih =>
    intro x
    rw [batchPairsAux, if_neg (by omega : ¬stop < lo)]
    by_cases hclip : stop ≤ lo + step
    · rw [if_pos hclip]
      constructor
      · rintro ⟨h1, h2⟩
        rcases eq_or_lt_of_le h1 with heq | hlt
        · exact Or.inl heq.symm
        · exact Or.inr ⟨(lo, stop), List.mem_singleton.mpr rfl, hlt, h2⟩
      · rintro (rfl | ⟨p, hp, hx1, hx2⟩)
        · exact ⟨le_refl x, hlo⟩
        · have hps : p = (lo, stop) := List.mem_singleton.mp hp
          subst hps
          exact ⟨le_of_lt hx1, hx2⟩
    · rw [if_neg hclip]
      have ihx := ih (lo + step) (by omega) (by omega) x
      constructor
      · rintro ⟨h1, h2⟩
        by_cases hxs : x ≤ lo + step
        · rcases eq_or_lt_of_le h1 with heq | hlt
          · exact Or.inl heq.symm
          · exact Or.inr ⟨(lo, lo + step), List.mem_cons_self _ _, hlt, hxs⟩
        · rcases ihx.mp ⟨by omega, h2⟩ with heq | ⟨p, hp, hx1, hx2⟩
          · omega
          · exact Or.inr ⟨p, List.mem_cons_of_mem _ hp, hx1, hx2⟩
      · rintro (rfl | ⟨p, hp, hx1, hx2⟩)
        · exact ⟨le_refl x, hlo⟩
        · rcases List.mem_cons.mp hp with hhead | htail
          · subst hhead
            simp only at hx1 hx2
            constructor <;> omega
          · have := ihx.mpr (Or.inr ⟨p, htail, hx1, hx2⟩)
            constructor <;> omega

/-! ## Lower-bound comparators (spec-modelled `HWMStrategy`, plus
`snapshot_strategy.py`) -/

/-- Modelled from the spec: `HWMStrategy.current_value_comparator`
(`hwm_strategy.py` is not part of this source tree) — "every subsequent pair
uses an exclusive lower bound (`>`)": the usual comparator is `operator.gt`. -/
def hwm_current_value_comparator : Comparator := Comparator.gt

/-- `SnapshotBatchStrategy.current_value_comparator`: `operator.ge` on the
first run, else the superclass comparator. -/
def snapshot_batch_current_value_comparator (is_first_run : Bool) : Comparator :=
  if is_first_run then Comparator.ge else hwm_current_value_comparator

/-- Modelled from the spec: attach the lower-bound comparator to each produced
boundary pair in iteration order — the flag is `is_first_run` for the pair
about to be produced, and every pair after the first is no longer the first
pair of the run. -/
def attachComparators : Bool → List (Int × Int) → List (Comparator × Int × Int)
  | _, [] => []
  | firstRun, p :: rest =>
    (snapshot_batch_current_value_comparator firstRun, p.1, p.2) ::
      attachComparators false rest

/-- The full predicate plan of one batch run: `hasPriorHWM` records whether a
persisted HWM existed at strategy entry (its absence makes the run a "first
run" per spec section 4.2, entry step 2). -/
def batchPredicates (hasPriorHWM : Bool) (start stop step : Int) :
    List (Comparator × Int × Int) :=
  attachComparators (!hasPriorHWM) (batchPairs start stop step)

theorem attachComparators_not_first_gt (l : List (Int × Int)) :
    ∀ q ∈ attachComparators false l, q.1 = Comparator.gt := by
  induction l with
  | nil => intro q hq; simp [attachComparators] at hq
  | cons p rest ih =>
    intro q hq
    rcases List.mem_cons.mp hq with hhead | htail
    · subst hhead
      rfl
    · exact ih q htail

/-- C2: for resolved bounds `start ≤ stop` and strictly positive `step`, the
boundary pair sequence exactly covers `[start, stop]`: every point of the
interval lies in some pair's span (the first point via the inclusive first
lower bound, every other via some pair's half-open `(lower, upper]` span) and
conversely; consecutive pairs meet exactly (`upper = next lower`, so no gaps
and no overlaps, the lower bounds being exclusive); the spans are pairwise
non-overlapping; the first lower bound is `start` and the final upper bound is
exactly `stop`; and `step=100, start=1000, stop=1400` yields exactly the four
pairs `(>=1000,<=1100), (>1100,<=1200), (>1200,<=1300), (>1300,<=1400)`. -/
theorem batch_pairs_cover (start stop step : Int) (hstep : 0 < step) (hse : start ≤ stop) :
    (∀ x : Int, (start ≤ x ∧ x ≤ stop) ↔
      (x = start ∨ ∃ p ∈ batchPairs start stop step, p.1 < x ∧ x ≤ p.2))
    ∧ List.Chain' (fun p q : Int × Int => p.2 = q.1) (batchPairs start stop step)
    ∧ List.Pairwise (fun p q : Int × Int => p.2 ≤ q.1) (batchPairs start stop step)
    ∧ (batchPairs start stop step).head?.map Prod.fst = some start
    ∧ (batchPairs start stop step).getLast?.map Prod.snd = some stop
    ∧ batchPredicates false 1000 1400 100 =
        [(Comparator.ge, 1000, 1100), (Comparator.gt, 1100, 1200),
         (Comparator.gt, 1200, 1300), (Comparator.gt, 1300, 1400)] := by
  refine ⟨?_, ?_, ?_, ?_, ?_, by decide⟩
  · exact batchPairsAux_cover _ start stop step hstep (by omega) hse
  · exact batchPairsAux_chain _ start stop step hstep (by omega) hse
  · exact batchPairsAux_pairwise _ start stop step hstep (by omega) hse
  · exact batchPairsAux_head _ start stop step (by omega) hse
  · exact batchPairsAux_last _ start stop step hstep (by omega) hse

theorem batch_pairs_cover_witness :
    (0 : Int) < 100 ∧ (1000 : Int) ≤ 1400
    ∧ ((∀ x : Int, ((1000 : Int) ≤ x ∧ x ≤ 1400) ↔
        (x = 1000 ∨ ∃ p ∈ batchPairs 1000 1400 100, p.1 < x ∧ x ≤ p.2))
      ∧ List.Chain' (fun p q : Int × Int => p.2 = q.1) (batchPairs 1000 1400 100)
      ∧ List.Pairwise (fun p q : Int × Int => p.2 ≤ q.1) (batchPairs 1000 1400 100)
      ∧ (batchPairs 1000 1400 100).head?.map Prod.fst = some 1000
      ∧ (batchPairs 1000 1400 100).getLast?.map Prod.snd = some 1400
      ∧ batchPredicates false 1000 1400 100 =
          [(Comparator.ge, 1000, 1100), (Comparator.gt, 1100, 1200),
           (Comparator.gt, 1200, 1300), (Comparator.gt, 1300, 1400)]) :=
  ⟨by decide, by decide, batch_pairs_cover 1000 1400 100 (by decide) (by decide)⟩

/-- C3: in every batch boundary sequence the first pair's lower-bound
comparator is inclusive (`>=`) exactly when the run is a first run (no prior
HWM existed), and every subsequent pair's lower-bound comparator is exclusive
(`>`). -/
theorem batch_first_pair_comparator (hasPriorHWM : Bool) (start stop step : Int)
    (hstep : 0 < step) (hse : start ≤ stop) :
    ∃ c0 l0 u0 rest,
      batchPredicates hasPriorHWM start stop step = (c0, l0, u0) :: rest
      ∧ (c0 = Comparator.ge ↔ hasPriorHWM = false)
      ∧ ∀ q ∈ rest, q.1 = Comparator.gt := by
  cases hlist : batchPairs start stop step with
  | nil =>
    exact absurd hlist (batchPairsAux_ne_nil _ start stop step (by omega) hse)
  | cons p ps =>
    refine ⟨snapshot_batch_current_value_comparator (!hasPriorHWM), p.1, p.2,
      attachComparators false ps, ?_, ?_, attachComparators_not_first_gt ps⟩
    · simp [batchPredicates, hlist, attachComparators]
    · cases hasPriorHWM <;> decide

theorem batch_first_pair_comparator_witness :
    (0 : Int) < 100 ∧ (1000 : Int) ≤ 1400
    ∧ (∃ c0 l0 u0 rest,
        batchPredicates false 1000 1400 100 = (c0, l0, u0) :: rest
        ∧ (c0 = Comparator.ge ↔ false = false)
        ∧ ∀ q ∈ rest, q.1 = Comparator.gt)
    ∧ (∃ c0 l0 u0 rest,
        batchPredicates true 1000 1400 100 = (c0, l0, u0) :: rest
        ∧ (c0 = Comparator.ge ↔ true = false)
        ∧ ∀ q ∈ rest, q.1 = Comparator.gt) :=
  ⟨by decide, by decide,
   batch_first_pair_comparator false 1000 1400 100 (by decide) (by decide),
   batch_first_pair_comparator true 1000 1400 100 (by decide) (by decide)⟩

end Onetl
